import Mathlib

/-!
Verification of the web-csv-toolbox WASM CSV engine
(`src/web-csv-toolbox-wasm`), shallowly embedded in Lean.

Bytes are modelled as `Nat` values below 256, byte buffers as `List Nat`.
Rust `u32` arithmetic is modelled with explicit `% 2^32` where the source
can wrap. The scanner state (`in_quote`) is a `Nat` toggled by XOR with 1,
exactly as in the source.
-/

namespace CsvWasm

/-- 2^32, the modulus of Rust `u32` arithmetic. -/
def U32 : Nat := 4294967296

/-- Separator type tag: delimiter (from `simd/scanner.rs`). -/
def SEP_DELIMITER : Nat := 0

/-- Separator type tag: line feed (from `simd/scanner.rs`). -/
def SEP_LF : Nat := 1

/-- Model of `pack_separator` from `simd/scanner.rs`: offset in bits 0-30, type in bit 31. -/
def pack_separator (offset sepType : Nat) : Nat :=
  offset ||| (sepType <<< 31)

/-- Model of `unpack_offset` from `simd/scanner.rs`. -/
def unpack_offset (packed : Nat) : Nat :=
  packed &&& 0x7FFFFFFF

/-- Model of `unpack_type` from `simd/scanner.rs`. -/
def unpack_type (packed : Nat) : Nat :=
  packed >>> 31

/-- Model of `pack_separator_extended` from `simd/scanner.rs`: offset bits 0-29,
`is_quoted` bit 30, type bit 31. -/
def pack_separator_extended (offset : Nat) (isQuoted : Bool) (sepType : Nat) : Nat :=
  (offset &&& 0x3FFFFFFF) ||| ((if isQuoted then 1 else 0) <<< 30) ||| (sepType <<< 31)

/-- Constant `MAX_OFFSET_EXTENDED` from `simd/scanner.rs` (30 bits). -/
def MAX_OFFSET_EXTENDED : Nat := 0x3FFFFFFF

/-- Result of `SimdScanner::scan_scalar`. -/
structure ScanResult where
  separators : List Nat
  end_in_quote : Nat
deriving Repr, DecidableEq

/-- The byte loop of `SimdScanner::scan_scalar` (simd/scanner.rs lines 308-329).
`pos` is the running absolute offset `base_offset + i`; the source computes it
in `u32` arithmetic, hence the `% U32` at packing time. Returns the emitted
separators and the final quote state. -/
def scanGo (delimiter quote : Nat) : List Nat → Nat → Nat → List Nat × Nat
  | [], _, inq => ([], inq)
  | b :: rest, pos, inq =>
    if b = quote then
      scanGo delimiter quote rest (pos + 1) (inq ^^^ 1)
    else if inq = 0 then
      if b = delimiter then
        let r := scanGo delimiter quote rest (pos + 1) inq
        (pack_separator (pos % U32) SEP_DELIMITER :: r.1, r.2)
      else if b = 10 then
        let r := scanGo delimiter quote rest (pos + 1) inq
        (pack_separator (pos % U32) SEP_LF :: r.1, r.2)
      else
        scanGo delimiter quote rest (pos + 1) inq
    else
      scanGo delimiter quote rest (pos + 1) inq

/-- Model of `SimdScanner::scan_scalar`: scan a chunk from carried-in quote state `inq`
with the given base offset. -/
def scan_scalar (delimiter quote : Nat) (chunk : List Nat) (base_offset inq : Nat) :
    ScanResult :=
  let r := scanGo delimiter quote chunk base_offset inq
  ⟨r.1, r.2⟩

/-- Chunked scanning: feed the chunks one at a time, carrying the ending quote
state of each call into the next (`SimdScanner::set_in_quote`) and passing the
number of bytes already scanned as the base offset. -/
def scanChunks (delimiter quote : Nat) : List (List Nat) → Nat → Nat → List Nat × Nat
  | [], _, inq => ([], inq)
  | c :: cs, base, inq =>
    let r := scan_scalar delimiter quote c base inq
    let rs := scanChunks delimiter quote cs (base + c.length) r.end_in_quote
    (r.separators ++ rs.1, rs.2)

theorem scanGo_append (delimiter quote : Nat) (xs ys : List Nat) (pos inq : Nat) :
    scanGo delimiter quote (xs ++ ys) pos inq =
      ((scanGo delimiter quote xs pos inq).1 ++
        (scanGo delimiter quote ys (pos + xs.length)
          (scanGo delimiter quote xs pos inq).2).1,
       (scanGo delimiter quote ys (pos + xs.length)
          (scanGo delimiter quote xs pos inq).2).2) := by
  induction xs generalizing pos inq with
  | nil => simp [scanGo]
  | cons b rest ih =>
    have harith : pos + (b :: rest).length = pos + 1 + rest.length := by
      simp [List.length_cons]
      omega
    simp only [List.cons_append, scanGo, harith]
    by_cases hq : b = quote
    · simp [hq, ih]
    · by_cases hz : inq = 0
      · by_cases hd : b = delimiter
        · subst hd
          simp [hq, hz, ih]
        · by_cases hl : b = 10
          · subst hl
            simp [hq, hz, hd, ih]
          · simp [hq, hz, hd, hl, ih]
      · simp [hq, hz, ih]

theorem scanChunks_eq_scan_join (delimiter quote : Nat) (cs : List (List Nat))
    (base inq : Nat) :
    scanChunks delimiter quote cs base inq =
      ((scan_scalar delimiter quote cs.flatten base inq).separators,
       (scan_scalar delimiter quote cs.flatten base inq).end_in_quote) := by
  induction cs generalizing base inq with
  | nil => simp [scanChunks, scan_scalar, scanGo]
  | cons c cs ih =>
    simp only [scanChunks, scan_scalar, ih]
    rw [show (c :: cs).flatten = c ++ cs.flatten from rfl, scanGo_append]

/-! ## Extended scanning (`scan_extended_scalar`) -/

/-- Result of `SimdScanner::scan_extended_scalar`. -/
structure ScanResultExtended where
  separators : List Nat
  unescape_flags : List Nat
  end_in_quote : Nat
  error : Option String
deriving Repr, DecidableEq

/-- Mutable loop state of `scan_extended_scalar` (field metadata tracking). -/
structure ExtScanState where
  inq : Nat
  field_is_quoted : Bool
  field_has_escaped_quote : Bool
  field_start_offset : Nat
  field_index : Nat
  current_flags : Nat
  unescape_flags : List Nat
  separators : List Nat
deriving Repr, DecidableEq

/-- Emission of one separator in `scan_extended_scalar`: push the packed
separator, record the unescape flag, advance the field index, flush the
32-field flag word when full, and reset the per-field state. -/
def extEmit (st : ExtScanState) (pos sepType : Nat) : ExtScanState :=
  let flags := if st.field_has_escaped_quote then
      st.current_flags ||| (1 <<< (st.field_index &&& 31))
    else st.current_flags
  let fidx := st.field_index + 1
  let flushWord := fidx &&& 31 = 0
  { inq := st.inq
    field_is_quoted := false
    field_has_escaped_quote := false
    field_start_offset := pos + 1
    field_index := fidx
    current_flags := if flushWord then 0 else flags
    unescape_flags := if flushWord then st.unescape_flags ++ [flags] else st.unescape_flags
    separators := st.separators ++
      [pack_separator_extended (pos % U32) st.field_is_quoted sepType] }

/-- The byte loop of `scan_extended_scalar` (simd/scanner.rs lines 956-1003).
The escaped-quote lookahead `chunk[i + 1] == quote` is the head of the tail. -/
def extGo (delimiter quote : Nat) : List Nat → Nat → ExtScanState → ExtScanState
  | [], _, st => st
  | b :: rest, pos, st =>
    if b = quote then
      let st :=
        if st.inq = 0 then
          if pos % U32 = st.field_start_offset then { st with field_is_quoted := true }
          else st
        else
          if st.field_is_quoted ∧ rest.head? = some quote then
            { st with field_has_escaped_quote := true }
          else st
      extGo delimiter quote rest (pos + 1) { st with inq := st.inq ^^^ 1 }
    else if st.inq = 0 then
      if b = delimiter then
        extGo delimiter quote rest (pos + 1) (extEmit st (pos % U32) SEP_DELIMITER)
      else if b = 10 then
        extGo delimiter quote rest (pos + 1) (extEmit st (pos % U32) SEP_LF)
      else
        extGo delimiter quote rest (pos + 1) st
    else
      extGo delimiter quote rest (pos + 1) st

/-- The overflow error message built by `scan_extended_scalar`. -/
def offsetOverflowMsg (base len maxOff : Nat) : String :=
  "Offset overflow: base_offset (" ++ toString base ++ ") + chunk_len (" ++
    toString len ++ ") = " ++ toString maxOff ++
    " exceeds maximum allowed offset (" ++ toString MAX_OFFSET_EXTENDED ++
    "). This limit is enforced due to internal 30-bit offset representation constraints."

/-- Model of `SimdScanner::scan_extended_scalar` (simd/scanner.rs lines 929-1016):
checks the 30-bit offset budget up front (`base_offset.saturating_add(len as u32)`),
then runs the extended byte loop and flushes the last partial flag word. -/
def scan_extended_scalar (delimiter quote : Nat) (chunk : List Nat)
    (base_offset inq : Nat) : ScanResultExtended :=
  let len := chunk.length
  let max_offset := min (base_offset + len % U32) (U32 - 1)
  if max_offset > MAX_OFFSET_EXTENDED ∧ len > 0 then
    { separators := []
      unescape_flags := []
      end_in_quote := inq
      error := some (offsetOverflowMsg base_offset len max_offset) }
  else
    let st := extGo delimiter quote chunk base_offset
      { inq := inq
        field_is_quoted := false
        field_has_escaped_quote := false
        field_start_offset := base_offset
        field_index := 0
        current_flags := 0
        unescape_flags := []
        separators := [] }
    { separators := st.separators
      unescape_flags :=
        if st.field_index &&& 31 ≠ 0 then st.unescape_flags ++ [st.current_flags]
        else st.unescape_flags
      end_in_quote := st.inq
      error := none }

/-! ## Field unescaping (`unescape_field`) -/

/-- Model of `Cow<[u8]>`: `borrowed` is a zero-copy view into the input,
`owned` is a freshly allocated buffer. -/
inductive CowBytes where
  | borrowed : List Nat → CowBytes
  | owned : List Nat → CowBytes
deriving Repr, DecidableEq

/-- The bytes held by either `Cow` variant. -/
def CowBytes.bytes : CowBytes → List Nat
  | .borrowed l => l
  | .owned l => l

/-- The unescape while-loop of `unescape_field` (simd/scanner.rs lines
1110-1120), written over the remaining suffix: the source checks
`inner[i] == quote && i + 1 < inner.len() && inner[i + 1] == quote`,
advancing by 2 on a doubled quote and by 1 otherwise. -/
def unescapeLoop (quote : Nat) : List Nat → List Nat
  | [] => []
  | [b] => [b]
  | a :: b :: rest =>
    if a = quote ∧ b = quote then quote :: unescapeLoop quote rest
    else a :: unescapeLoop quote (b :: rest)

/-- Model of `unescape_field` from `simd/scanner.rs` (lines 1091-1123). -/
def unescape_field (field : List Nat) (quote : Nat) : CowBytes :=
  if field.length < 2 then .borrowed field
  else if field.headD 0 ≠ quote ∨ field.getLastD 0 ≠ quote then .borrowed field
  else
    let inner := (field.drop 1).dropLast
    if quote ∉ inner then .borrowed inner
    else .owned (unescapeLoop quote inner)

/-! ## Field extraction (`extract_fields`) -/

/-- Rust slice indexing `&data[s..e]`: panics (modelled as `none`) unless
`s ≤ e ∧ e ≤ data.len()`. -/
def rustSlice (data : List Nat) (s e : Nat) : Option (List Nat) :=
  if s ≤ e ∧ e ≤ data.length then some ((data.take e).drop s) else none

/-- The separator loop of `extract_fields` (simd/scanner.rs lines 1043-1065).
Returns the completed records, the in-progress record and the final
`field_start`; `none` models an out-of-bounds slice panic. Subtraction is
`Nat` subtraction, which is exactly `usize::saturating_sub`. -/
def extractGo (data : List Nat) (start_offset : Nat) :
    List Nat → Nat → List (List Nat) → List (List (List Nat)) →
      Option (List (List (List Nat)) × List (List Nat) × Nat)
  | [], fs, cur, recs => some (recs, cur, fs)
  | p :: ps, fs, cur, recs =>
    let offset := unpack_offset p
    let field_end := offset
    let step : Option (List (List Nat)) :=
      if field_end ≥ fs ∧ field_end ≤ data.length + start_offset then
        if field_end - start_offset ≤ data.length then
          match rustSlice data (fs - start_offset) (field_end - start_offset) with
          | some f => some (cur ++ [f])
          | none => none
        else some cur
      else some cur
    match step with
    | none => none
    | some cur2 =>
      if unpack_type p = SEP_LF then
        extractGo data start_offset ps (offset + 1) [] (recs ++ [cur2])
      else
        extractGo data start_offset ps (offset + 1) cur2 recs

/-- The post-loop phase of `extract_fields` (simd/scanner.rs lines 1067-1083):
push the trailing field after the last separator (if any) and the trailing
incomplete record. -/
def extractTrailing (data : List Nat) (start_offset : Nat)
    (recs : List (List (List Nat))) (cur : List (List Nat)) (fs : Nat) :
    Option (List (List (List Nat))) :=
  let afterTrailing : Option (List (List Nat)) :=
    if fs ≤ data.length + start_offset then
      if fs - start_offset < data.length then
        match rustSlice data (fs - start_offset) data.length with
        | some f => some (if f ≠ [] ∨ cur ≠ [] then cur ++ [f] else cur)
        | none => none
      else some cur
    else some cur
  match afterTrailing with
  | none => none
  | some cur2 => some (if cur2 ≠ [] then recs ++ [cur2] else recs)

/-- Model of `extract_fields` from `simd/scanner.rs` (lines 1034-1084): run the
separator loop, then handle the trailing field after the last separator and
the trailing incomplete record. -/
def extract_fields (data : List Nat) (separators : List Nat) (start_offset : Nat) :
    Option (List (List (List Nat))) :=
  match extractGo data start_offset separators start_offset [] [] with
  | none => none
  | some (recs, cur, fs) => extractTrailing data start_offset recs cur fs

/-- Predicate: `f` is a contiguous sub-slice of `data`. -/
def SliceOf (data f : List Nat) : Prop :=
  ∃ u v, data = u ++ f ++ v

theorem rustSlice_sliceOf (data : List Nat) (s e : Nat) (f : List Nat)
    (h : rustSlice data s e = some f) : SliceOf data f := by
  unfold rustSlice at h
  split at h
  · rename_i hse
    obtain ⟨h1, h2⟩ := hse
    refine ⟨(data.take e).take s, data.drop e, ?_⟩
    have hf : f = (data.take e).drop s := by
      exact (Option.some_inj.mp h).symm
    subst hf
    have hd : data.take e = (data.take e).take s ++ (data.take e).drop s :=
      (List.take_append_drop s (data.take e)).symm
    conv_lhs => rw [← List.take_append_drop e data, hd]
  · exact absurd h (by simp)

theorem extractGo_spec (data : List Nat) (so : Nat) (seps : List Nat) :
    ∀ (fs : Nat) (cur : List (List Nat)) (recs : List (List (List Nat))),
    (∀ r ∈ recs, ∀ f ∈ r, SliceOf data f) → (∀ f ∈ cur, SliceOf data f) →
    ∃ recs2 cur2 fs2, extractGo data so seps fs cur recs = some (recs2, cur2, fs2) ∧
      (∀ r ∈ recs2, ∀ f ∈ r, SliceOf data f) ∧ (∀ f ∈ cur2, SliceOf data f) := by
  induction seps with
  | nil =>
    intro fs cur recs hrecs hcur
    exact ⟨recs, cur, fs, rfl, hrecs, hcur⟩
  | cons p ps ih =>
    intro fs cur recs hrecs hcur
    simp only [extractGo]
    by_cases hg : unpack_offset p ≥ fs ∧ unpack_offset p ≤ data.length + so
    · by_cases hle : unpack_offset p - so ≤ data.length
      · have hslice : rustSlice data (fs - so) (unpack_offset p - so) =
            some ((data.take (unpack_offset p - so)).drop (fs - so)) := by
          unfold rustSlice
          rw [if_pos]
          exact ⟨Nat.sub_le_sub_right hg.1 so, hle⟩
        have hcur2 : ∀ f ∈ cur ++ [(data.take (unpack_offset p - so)).drop (fs - so)],
            SliceOf data f := by
          intro f hf
          rcases List.mem_append.mp hf with h | h
          · exact hcur f h
          · have : f = (data.take (unpack_offset p - so)).drop (fs - so) := by
              simpa using h
            subst this
            exact rustSlice_sliceOf data (fs - so) (unpack_offset p - so) _ hslice
        simp only [hg, if_pos, hle, hslice, and_self, ite_true]
        split
        · refine ih (unpack_offset p + 1) [] (recs ++ [_]) ?_ (by simp)
          intro r hr f hf
          rcases List.mem_append.mp hr with h | h
          · exact hrecs r h f hf
          · have : r = cur ++ [(data.take (unpack_offset p - so)).drop (fs - so)] := by
              simpa using h
            subst this
            exact hcur2 f hf
        · exact ih (unpack_offset p + 1) _ recs hrecs hcur2
      · simp only [hg, and_self, ite_true, if_neg hle]
        split
        · refine ih (unpack_offset p + 1) [] (recs ++ [cur]) ?_ (by simp)
          intro r hr f hf
          rcases List.mem_append.mp hr with h | h
          · exact hrecs r h f hf
          · have : r = cur := by simpa using h
            subst this
            exact hcur f hf
        · exact ih (unpack_offset p + 1) cur recs hrecs hcur
    · simp only [if_neg hg]
      split
      · refine ih (unpack_offset p + 1) [] (recs ++ [cur]) ?_ (by simp)
        intro r hr f hf
        rcases List.mem_append.mp hr with h | h
        · exact hrecs r h f hf
        · have : r = cur := by simpa using h
          subst this
          exact hcur f hf
      · exact ih (unpack_offset p + 1) cur recs hrecs hcur

/-! ## One-shot parsing (`parse_csv` from `parser/parse.rs`)

Field values are modelled as raw unescaped byte lists; the source additionally
re-encodes each field as a `String` (identity at byte level for valid UTF-8,
lossy replacement otherwise), which is a presentation step that does not
alter the byte-level content considered here. -/

/-- Accumulator of the separator loop in `parse_csv`. -/
structure ParseAcc where
  field_start : Nat
  current_record : List (List Nat)
  is_header_row : Bool
  headers : List (List Nat)
  field_data : List (List Nat)
  counts : List Nat
deriving Repr, DecidableEq

/-- The header-row field-count error message of `parse_csv`. -/
def fieldCountMsgHeader (n m : Nat) : String :=
  "Field count (" ++ toString n ++ ") exceeds maximum allowed (" ++ toString m ++ ")"

/-- The data-row field-count error message of `parse_csv`. -/
def fieldCountMsgData (n m : Nat) : String :=
  "Data row field count (" ++ toString n ++ ") exceeds maximum allowed (" ++
    toString m ++ ")"

/-- Field extraction for one separator in `parse_csv` (parser/parse.rs lines
72-86): clamp the separator offset to the input length, slice from
`field_start`, and strip one trailing CR (CRLF normalisation). -/
def takeFieldBytes (input : List Nat) (fs offset : Nat) : List Nat :=
  let fe := min offset input.length
  let fb := if fs ≤ fe then (input.take fe).drop fs else []
  if fb ≠ [] ∧ fb.getLastD 0 = 13 then fb.dropLast else fb

/-- Header-row completion in `parse_csv`: unescape every field, then check the
field count against `max_field_count`. -/
def completeHeaderRow (quote maxFC : Nat) (r : List (List Nat)) :
    Except String (List (List Nat)) :=
  let hs := r.map (fun f => (unescape_field f quote).bytes)
  if hs.length > maxFC then .error (fieldCountMsgHeader hs.length maxFC)
  else .ok hs

/-- Data-row completion in `parse_csv`: check the actual field count, keep the
first `headers.length` unescaped fields, and pad missing trailing fields with
empty strings. Returns the flat field data of the row and its actual field count. -/
def completeDataRow (quote maxFC : Nat) (headers : List (List Nat))
    (r : List (List Nat)) : Except String (List (List Nat) × Nat) :=
  let actual := r.length
  if actual > maxFC then .error (fieldCountMsgData actual maxFC)
  else
    let kept := (r.take headers.length).map (fun f => (unescape_field f quote).bytes)
    let pad : List (List Nat) := List.replicate (headers.length - actual) []
    .ok (kept ++ pad, actual)

/-- The separator loop of `parse_csv` (parser/parse.rs lines 68-153). -/
def parseLoop (input : List Nat) (quote maxFC : Nat) :
    List Nat → ParseAcc → Except String ParseAcc
  | [], acc => .ok acc
  | packed :: ps, acc =>
    let offset := unpack_offset packed
    let fb := takeFieldBytes input acc.field_start offset
    let r2 := acc.current_record ++ [fb]
    if unpack_type packed = SEP_LF then
      if acc.is_header_row then
        match completeHeaderRow quote maxFC r2 with
        | .error e => .error e
        | .ok hs =>
          parseLoop input quote maxFC ps
            { field_start := offset + 1
              current_record := []
              is_header_row := false
              headers := hs
              field_data := acc.field_data
              counts := acc.counts }
      else
        match completeDataRow quote maxFC acc.headers r2 with
        | .error e => .error e
        | .ok res =>
          parseLoop input quote maxFC ps
            { acc with
              field_start := offset + 1
              current_record := []
              field_data := acc.field_data ++ res.1
              counts := acc.counts ++ [res.2] }
    else
      parseLoop input quote maxFC ps
        { acc with field_start := offset + 1, current_record := r2 }

/-- The phase of `parse_csv` after scanning: empty-input early return, the
unclosed-quote check, the virtual trailing separator for inputs without a
final newline, the separator loop, and the trailing-record handling. -/
def parse_from_scan (input : List Nat) (quote maxFC : Nat) (sr : ScanResult) :
    Except String (List (List Nat) × List (List Nat) × List Nat) :=
  if sr.separators = [] ∧ input = [] then .ok ([], [], [])
  else if sr.end_in_quote ≠ 0 then
    .error "Unexpected EOF while parsing quoted field"
  else
    let virtualSep : List Nat :=
      if input ≠ [] ∧ input.getLastD 0 ≠ 10 then
        [pack_separator (input.length % U32) SEP_LF]
      else []
    match parseLoop input quote maxFC (sr.separators ++ virtualSep)
        { field_start := 0
          current_record := []
          is_header_row := true
          headers := []
          field_data := []
          counts := [] } with
    | .error e => .error e
    | .ok acc =>
      if acc.current_record ≠ [] then
        if acc.is_header_row then
          match completeHeaderRow quote maxFC acc.current_record with
          | .error e => .error e
          | .ok hs => .ok (hs, acc.field_data, acc.counts)
        else
          match completeDataRow quote maxFC acc.headers acc.current_record with
          | .error e => .error e
          | .ok res => .ok (acc.headers, acc.field_data ++ res.1, acc.counts ++ [res.2])
      else .ok (acc.headers, acc.field_data, acc.counts)

/-- Model of `parse_csv` from `parser/parse.rs`: scan the whole input in one call from
quote state 0, then extract headers, flat field data and actual field counts. -/
def parse_csv (input : List Nat) (delimiter quote maxFC : Nat) :
    Except String (List (List Nat) × List (List Nat) × List Nat) :=
  parse_from_scan input quote maxFC (scan_scalar delimiter quote input 0 0)

/-- Chunked processing: scan the chunks one call at a time (carrying the quote
state, base offset = bytes already scanned), then run the same
extraction/flush phase on the accumulated separators. -/
def parse_csv_chunks (chunks : List (List Nat)) (delimiter quote maxFC : Nat) :
    Except String (List (List Nat) × List (List Nat) × List Nat) :=
  let s := scanChunks delimiter quote chunks 0 0
  parse_from_scan chunks.flatten quote maxFC ⟨s.1, s.2⟩

/-- ASCII string to byte list, for concrete test inputs. -/
def asciiBytes (s : String) : List Nat :=
  s.data.map Char.toNat

/-! ## Claim theorems -/

/-- C1: for every byte input and every way of splitting it into chunks,
feeding the chunks one at a time to the scanner (carrying the ending quote
state of each call into the next and passing the bytes already scanned as the
base offset) produces exactly the same concatenated separator list and final
quote state as scanning the whole input in one call, and hence the chunked
process/flush pipeline yields the same headers, field values and actual field
counts as processing the whole input at once. -/
theorem chunk_size_independence (delimiter quote maxFC : Nat)
    (chunks : List (List Nat)) :
    scanChunks delimiter quote chunks 0 0 =
      ((scan_scalar delimiter quote chunks.flatten 0 0).separators,
       (scan_scalar delimiter quote chunks.flatten 0 0).end_in_quote) ∧
    parse_csv_chunks chunks delimiter quote maxFC =
      parse_csv chunks.flatten delimiter quote maxFC := by
  refine ⟨scanChunks_eq_scan_join delimiter quote chunks 0 0, ?_⟩
  unfold parse_csv_chunks parse_csv
  rw [scanChunks_eq_scan_join]

theorem scanGo_parity (d q : Nat) (l : List Nat) :
    ∀ pos inq, (scanGo d q l pos inq).2 = inq ^^^ (l.count q % 2) := by
  induction l with
  | nil => intro pos inq; simp [scanGo]
  | cons b rest ih =>
    intro pos inq
    by_cases hq : b = q
    · subst hq
      rw [show scanGo d b (b :: rest) pos inq =
            scanGo d b rest (pos + 1) (inq ^^^ 1) by simp [scanGo]]
      rw [ih]
      have hcount : (b :: rest).count b = rest.count b + 1 := by
        simp [List.count_cons]
      rw [hcount, Nat.xor_assoc]
      congr 1
      rcases Nat.mod_two_eq_zero_or_one (rest.count b) with h | h <;>
        rw [Nat.add_mod, h] <;> decide
    · have hcount : (b :: rest).count q = rest.count q := by
        simp [List.count_cons, hq]
      rw [hcount, ← ih (pos + 1) inq]
      by_cases hz : inq = 0
      · by_cases hd : b = d
        · subst hd
          simp [scanGo, hq, hz]
        · by_cases hl : b = 10
          · subst hl
            simp [scanGo, hq, hz, hd]
          · simp [scanGo, hq, hz, hd, hl]
      · simp [scanGo, hq, hz]

/-- C5: for every chunk and every starting quote state, the quote state after
a scan call equals the starting state XOR the parity of the number of quote
bytes in the chunk; two quote toggles in immediate succession cancel, and a
chunk with an even number of quote bytes ends in the state it started in. -/
theorem quote_state_xor_parity (d q : Nat) :
    (∀ chunk base inq, (scan_scalar d q chunk base inq).end_in_quote =
        inq ^^^ (chunk.count q % 2)) ∧
    (∀ rest base base2 inq, (scan_scalar d q (q :: q :: rest) base inq).end_in_quote =
        (scan_scalar d q rest base2 inq).end_in_quote) ∧
    (∀ chunk base inq, chunk.count q % 2 = 0 →
        (scan_scalar d q chunk base inq).end_in_quote = inq) := by
  refine ⟨fun chunk base inq => scanGo_parity d q chunk base inq, ?_, ?_⟩
  · intro rest base base2 inq
    show (scanGo d q (q :: q :: rest) base inq).2 = (scanGo d q rest base2 inq).2
    rw [scanGo_parity, scanGo_parity]
    have hcount : (q :: q :: rest).count q = rest.count q + 2 := by
      simp [List.count_cons]
    rw [hcount]
    congr 1
    omega
  · intro chunk base inq h
    show (scanGo d q chunk base inq).2 = inq
    rw [scanGo_parity, h, Nat.xor_zero]

/-- Witness for `quote_state_xor_parity`: a chunk holding exactly the escaped
pair of quote bytes leaves the quote state unchanged. -/
theorem quote_state_xor_parity_witness :
    (scan_scalar 44 34 (asciiBytes "ab\"\"cd") 0 0).end_in_quote = 0 :=
  (quote_state_xor_parity 44 34).2.2 (asciiBytes "ab\"\"cd") 0 0 (by decide)

/-- C7: in extended mode, a nonempty chunk whose base offset plus length
exceeds the 30-bit offset budget makes `scan_extended_scalar` return a
structured `OffsetOverflow` error with an empty separator list and the quote
state unchanged, and a chunk within the budget never yields that error.
The length/base bounds are the `u32`/wasm32 `usize` ranges of the source. -/
theorem extended_offset_overflow (d q : Nat) (chunk : List Nat) (base inq : Nat)
    (hlen : chunk.length < U32) (hbase : base < U32) :
    ((scan_extended_scalar d q chunk base inq).error ≠ none ↔
      (base + chunk.length > MAX_OFFSET_EXTENDED ∧ 0 < chunk.length)) ∧
    (base + chunk.length > MAX_OFFSET_EXTENDED → 0 < chunk.length →
      scan_extended_scalar d q chunk base inq =
        { separators := []
          unescape_flags := []
          end_in_quote := inq
          error := some (offsetOverflowMsg base chunk.length
            (min (base + chunk.length) (U32 - 1))) }) := by
  have hmod : chunk.length % U32 = chunk.length := Nat.mod_eq_of_lt hlen
  have hcond : (min (base + chunk.length % U32) (U32 - 1) > MAX_OFFSET_EXTENDED ∧
      chunk.length > 0) ↔
      (base + chunk.length > MAX_OFFSET_EXTENDED ∧ 0 < chunk.length) := by
    rw [hmod]
    unfold U32 MAX_OFFSET_EXTENDED
    omega
  constructor
  · by_cases hov : min (base + chunk.length % U32) (U32 - 1) > MAX_OFFSET_EXTENDED ∧
        chunk.length > 0
    · have herr : scan_extended_scalar d q chunk base inq =
          { separators := []
            unescape_flags := []
            end_in_quote := inq
            error := some (offsetOverflowMsg base chunk.length
              (min (base + chunk.length % U32) (U32 - 1))) } := by
        simp only [scan_extended_scalar]
        rw [if_pos hov]
      rw [herr]
      simp only [ne_eq, Option.some_ne_none, not_false_iff, true_iff]
      exact hcond.mp hov
    · have herr : (scan_extended_scalar d q chunk base inq).error = none := by
        simp only [scan_extended_scalar]
        rw [if_neg hov]
      rw [herr]
      simp only [ne_eq, not_true, false_iff]
      intro hc
      exact hov (hcond.mpr hc)
  · intro h1 h2
    have hov := hcond.mpr ⟨h1, h2⟩
    simp only [scan_extended_scalar]
    rw [if_pos hov, hmod]

/-- Witness for `extended_offset_overflow`: a one-byte chunk at base offset
`0x3FFFFFFF` overflows the 30-bit budget. -/
theorem extended_offset_overflow_witness :
    (scan_extended_scalar 44 34 [65] 0x3FFFFFFF 0).error ≠ none :=
  (extended_offset_overflow 44 34 [65] 0x3FFFFFFF 0 (by decide) (by decide)).1.mpr
    (by decide)

/-! ### C6: unescape_field contract -/

/-- CSV quoting of a field body: every quote byte is doubled. Written from the
spec wording as the inverse of quote doubling. -/
def escapeQuotes (quote : Nat) : List Nat → List Nat
  | [] => []
  | b :: rest =>
    if b = quote then quote :: quote :: escapeQuotes quote rest
    else b :: escapeQuotes quote rest

theorem escapeQuotes_eq_nil (quote : Nat) (w : List Nat) :
    escapeQuotes quote w = [] ↔ w = [] := by
  cases w with
  | nil => simp [escapeQuotes]
  | cons b rest =>
    simp only [escapeQuotes]
    split <;> simp

theorem unescapeLoop_escapeQuotes (quote : Nat) (w : List Nat) :
    unescapeLoop quote (escapeQuotes quote w) = w := by
  induction w with
  | nil => simp [escapeQuotes, unescapeLoop]
  | cons b rest ih =>
    by_cases hq : b = quote
    · subst hq
      simp [escapeQuotes, unescapeLoop, ih]
    · simp only [escapeQuotes, if_neg hq]
      cases hE : escapeQuotes quote rest with
      | nil =>
        have : rest = [] := (escapeQuotes_eq_nil quote rest).mp hE
        subst this
        simp [unescapeLoop]
      | cons c t =>
        have hguard : ¬(b = quote ∧ c = quote) := fun hc => hq hc.1
        simp only [unescapeLoop, if_neg hguard]
        rw [← hE, ih]

/-- C6: the `unescape_field` contract: a span that does not both begin and
end with the quote byte is returned unchanged without copying (borrowed); a
quoted span whose interior holds no quote byte yields the interior — first
and last byte stripped — without copying; a quoted span whose interior holds
quote bytes is the only case that allocates, and yields the interior with
each adjacent quote-pair collapsed to a single quote (`unescapeLoop`, which
inverts quote doubling). -/
theorem unescape_field_contract (quote : Nat) (field : List Nat) :
    (field.length < 2 ∨ field.headD 0 ≠ quote ∨ field.getLastD 0 ≠ quote →
        unescape_field field quote = .borrowed field) ∧
    (∀ inner, field = quote :: inner ++ [quote] → quote ∉ inner →
        unescape_field field quote = .borrowed inner) ∧
    (∀ inner, field = quote :: inner ++ [quote] → quote ∈ inner →
        unescape_field field quote = .owned (unescapeLoop quote inner)) ∧
    (∀ w, unescapeLoop quote (escapeQuotes quote w) = w) := by
  have hlast : ∀ (a q d : Nat) (l : List Nat), (a :: l ++ [q]).getLastD d = q := by
    intro a q d l
    rw [show a :: l ++ [q] = (a :: l) ++ [q] from rfl]
    exact List.getLastD_concat _ _ _
  refine ⟨?_, ?_, ?_, fun w => unescapeLoop_escapeQuotes quote w⟩
  · intro h
    simp only [unescape_field]
    rcases h with h | h
    · rw [if_pos h]
    · by_cases hlen : field.length < 2
      · rw [if_pos hlen]
      · rw [if_neg hlen, if_pos h]
  · intro inner hfe hnotin
    subst hfe
    simp only [unescape_field]
    rw [if_neg (by simp), if_neg ?hcond]
    case hcond =>
      push_neg
      exact ⟨rfl, hlast quote quote 0 inner⟩
    have hinner : ((quote :: inner ++ [quote]).drop 1).dropLast = inner := by
      simp [List.dropLast_concat]
    rw [hinner, if_pos hnotin]
  · intro inner hfe hin
    subst hfe
    simp only [unescape_field]
    rw [if_neg (by simp), if_neg ?hcond2]
    case hcond2 =>
      push_neg
      exact ⟨rfl, hlast quote quote 0 inner⟩
    have hinner : ((quote :: inner ++ [quote]).drop 1).dropLast = inner := by
      simp [List.dropLast_concat]
    rw [hinner, if_neg (by simpa using hin)]

/-- Witness for `unescape_field_contract`: the three cases at concrete fields;
the quoted field `"a""b"` unescapes to an owned buffer holding `a"b`. -/
theorem unescape_field_contract_witness :
    unescape_field (asciiBytes "hello") 34 = .borrowed (asciiBytes "hello") ∧
    unescape_field (asciiBytes "\"hello\"") 34 = .borrowed (asciiBytes "hello") ∧
    unescape_field (asciiBytes "\"a\"\"b\"") 34 = .owned (asciiBytes "a\"b") := by
  refine ⟨?_, ?_, ?_⟩
  · exact (unescape_field_contract 34 (asciiBytes "hello")).1 (by decide)
  · exact (unescape_field_contract 34 (asciiBytes "\"hello\"")).2.1
      (asciiBytes "hello") (by decide) (by decide)
  · have h := (unescape_field_contract 34 (asciiBytes "\"a\"\"b\"")).2.2.1
      (asciiBytes "a\"\"b") (by decide) (by decide)
    rw [h]
    decide

/-! ### C10: extract_fields safety -/

theorem sliceGuardRec (data : List Nat) (c : Prop) [Decidable c]
    (recs : List (List (List Nat))) (cur : List (List Nat))
    (hrecs : ∀ r ∈ recs, ∀ f ∈ r, SliceOf data f)
    (hcur : ∀ f ∈ cur, SliceOf data f) :
    ∀ r ∈ (if c then recs ++ [cur] else recs), ∀ f ∈ r, SliceOf data f := by
  by_cases hc : c
  · rw [if_pos hc]
    intro r hr f hf
    rcases List.mem_append.mp hr with h | h
    · exact hrecs r h f hf
    · have : r = cur := by simpa using h
      subst this
      exact hcur f hf
  · rw [if_neg hc]
    exact hrecs

theorem sliceGuardField (data : List Nat) (c : Prop) [Decidable c]
    (cur : List (List Nat)) (f0 : List Nat)
    (hcur : ∀ f ∈ cur, SliceOf data f) (hf0 : SliceOf data f0) :
    ∀ f ∈ (if c then cur ++ [f0] else cur), SliceOf data f := by
  by_cases hc : c
  · rw [if_pos hc]
    intro f hf
    rcases List.mem_append.mp hf with h | h
    · exact hcur f h
    · have : f = f0 := by simpa using h
      subst this
      exact hf0
  · rw [if_neg hc]
    exact hcur

theorem extractTrailing_spec (data : List Nat) (so : Nat)
    (recs : List (List (List Nat))) (cur : List (List Nat)) (fs : Nat)
    (hrecs : ∀ r ∈ recs, ∀ f ∈ r, SliceOf data f)
    (hcur : ∀ f ∈ cur, SliceOf data f) :
    ∃ out, extractTrailing data so recs cur fs = some out ∧
      ∀ r ∈ out, ∀ f ∈ r, SliceOf data f := by
  simp only [extractTrailing]
  by_cases h1 : fs ≤ data.length + so
  · by_cases h2 : fs - so < data.length
    · have hts : rustSlice data (fs - so) data.length =
          some ((data.take data.length).drop (fs - so)) := by
        unfold rustSlice
        rw [if_pos ⟨by omega, le_refl _⟩]
      have hsl : SliceOf data ((data.take data.length).drop (fs - so)) :=
        rustSlice_sliceOf data _ _ _ hts
      rw [if_pos h1, if_pos h2, hts]
      exact ⟨_, rfl, sliceGuardRec data _ recs _ hrecs
        (sliceGuardField data _ cur _ hcur hsl)⟩
    · rw [if_pos h1, if_neg h2]
      exact ⟨_, rfl, sliceGuardRec data _ recs cur hrecs hcur⟩
  · rw [if_neg h1]
    exact ⟨_, rfl, sliceGuardRec data _ recs cur hrecs hcur⟩

/-- C10: `extract_fields` is total over arbitrary separator input: for every
data slice, every start offset and every list of packed separator values (in
any order), every slice index stays in bounds (the result is `some`, never the
out-of-bounds panic modelled by `none`) and every field of every returned
record is a contiguous sub-slice of the input data. -/
theorem extract_fields_safe (data seps : List Nat) (so : Nat) :
    ∃ recs, extract_fields data seps so = some recs ∧
      ∀ r ∈ recs, ∀ f ∈ r, SliceOf data f := by
  obtain ⟨recs2, cur2, fs2, hgo, hrecs, hcur⟩ :=
    extractGo_spec data so seps so [] [] (by simp) (by simp)
  unfold extract_fields
  rw [hgo]
  exact extractTrailing_spec data so recs2 cur2 fs2 hrecs hcur

/-! ### C8: max field count guard -/

/-- Invariant carried through the `parse_csv` separator loop: all recorded
actual field counts are within the limit, and the header list is within the
limit once the header row has been taken. -/
def CountsOk (m : Nat) (acc : ParseAcc) : Prop :=
  (∀ c ∈ acc.counts, c ≤ m) ∧
  (acc.is_header_row = true → acc.headers = []) ∧
  (acc.is_header_row = false → acc.headers.length ≤ m)

theorem completeHeaderRow_ok (q m : Nat) (r : List (List Nat))
    (hs : List (List Nat)) (h : completeHeaderRow q m r = .ok hs) :
    hs.length ≤ m := by
  simp only [completeHeaderRow] at h
  split_ifs at h with hgt
  · have := Except.ok.inj h
    subst this
    simpa using Nat.le_of_not_lt hgt

theorem completeDataRow_ok (q m : Nat) (hs : List (List Nat))
    (r : List (List Nat)) (res : List (List Nat) × Nat)
    (h : completeDataRow q m hs r = .ok res) : res.2 ≤ m := by
  simp only [completeDataRow] at h
  split_ifs at h with hgt
  · have := Except.ok.inj h
    subst this
    simpa using Nat.le_of_not_lt hgt

theorem parseLoop_counts (input : List Nat) (q m : Nat) (seps : List Nat) :
    ∀ acc acc2, CountsOk m acc → parseLoop input q m seps acc = .ok acc2 →
      CountsOk m acc2 := by
  induction seps with
  | nil =>
    intro acc acc2 hok h
    have := Except.ok.inj h
    subst this
    exact hok
  | cons p ps ih =>
    intro acc acc2 hok h
    simp only [parseLoop] at h
    by_cases ht : unpack_type p = SEP_LF
    · rw [if_pos ht] at h
      by_cases hh : acc.is_header_row = true
      · rw [if_pos hh] at h
        cases hcr : completeHeaderRow q m (acc.current_record ++
            [takeFieldBytes input acc.field_start (unpack_offset p)]) with
        | error e =>
          rw [hcr] at h
          have h2 : (Except.error e : Except String ParseAcc) = .ok acc2 := h
          exact absurd h2 (by simp)
        | ok hs =>
          rw [hcr] at h
          have h2 : parseLoop input q m ps
              { field_start := unpack_offset p + 1
                current_record := []
                is_header_row := false
                headers := hs
                field_data := acc.field_data
                counts := acc.counts } = .ok acc2 := h
          have hinv2 : CountsOk m
              { field_start := unpack_offset p + 1
                current_record := []
                is_header_row := false
                headers := hs
                field_data := acc.field_data
                counts := acc.counts } :=
            ⟨hok.1, by simp, fun _ => completeHeaderRow_ok q m _ hs hcr⟩
          exact ih _ acc2 hinv2 h2
      · rw [if_neg hh] at h
        cases hdr : completeDataRow q m acc.headers (acc.current_record ++
            [takeFieldBytes input acc.field_start (unpack_offset p)]) with
        | error e =>
          rw [hdr] at h
          have h2 : (Except.error e : Except String ParseAcc) = .ok acc2 := h
          exact absurd h2 (by simp)
        | ok res =>
          rw [hdr] at h
          have h2 : parseLoop input q m ps
              { acc with
                field_start := unpack_offset p + 1
                current_record := []
                field_data := acc.field_data ++ res.1
                counts := acc.counts ++ [res.2] } = .ok acc2 := h
          have hinv2 : CountsOk m
              { acc with
                field_start := unpack_offset p + 1
                current_record := []
                field_data := acc.field_data ++ res.1
                counts := acc.counts ++ [res.2] } := by
            refine ⟨?_, hok.2.1, hok.2.2⟩
            intro c hc
            rcases List.mem_append.mp hc with hc | hc
            · exact hok.1 c hc
            · have : c = res.2 := by simpa using hc
              subst this
              exact completeDataRow_ok q m acc.headers _ res hdr
          exact ih _ acc2 hinv2 h2
    · rw [if_neg ht] at h
      have h2 : parseLoop input q m ps
          { acc with
            field_start := unpack_offset p + 1
            current_record := acc.current_record ++
              [takeFieldBytes input acc.field_start (unpack_offset p)] } = .ok acc2 := h
      have hinv2 : CountsOk m
          { acc with
            field_start := unpack_offset p + 1
            current_record := acc.current_record ++
              [takeFieldBytes input acc.field_start (unpack_offset p)] } :=
        ⟨hok.1, hok.2.1, hok.2.2⟩
      exact ih _ acc2 hinv2 h2

theorem parse_from_scan_bounds (input : List Nat) (q m : Nat) (sr : ScanResult)
    (h f c : _) (hok : parse_from_scan input q m sr = .ok (h, f, c)) :
    h.length ≤ m ∧ ∀ x ∈ c, x ≤ m := by
  simp only [parse_from_scan] at hok
  by_cases h1 : sr.separators = [] ∧ input = []
  · rw [if_pos h1] at hok
    have heq := (Except.ok.inj hok).symm
    have hh : h = [] := congrArg (fun t => t.1) heq
    have hc : c = [] := congrArg (fun t => t.2.2) heq
    subst hh
    subst hc
    exact ⟨Nat.zero_le m, by simp⟩
  · rw [if_neg h1] at hok
    by_cases h2 : sr.end_in_quote ≠ 0
    · rw [if_pos h2] at hok
      exact absurd hok (by simp)
    · rw [if_neg h2] at hok
      cases hpl : parseLoop input q m (sr.separators ++
          (if input ≠ [] ∧ input.getLastD 0 ≠ 10 then
            [pack_separator (input.length % U32) SEP_LF] else []))
          { field_start := 0
            current_record := []
            is_header_row := true
            headers := []
            field_data := []
            counts := [] } with
      | error e =>
        rw [hpl] at hok
        have hok2 : (Except.error e :
            Except String (List (List Nat) × List (List Nat) × List Nat)) =
            .ok (h, f, c) := hok
        exact absurd hok2 (by simp)
      | ok acc =>
        rw [hpl] at hok
        have hinv : CountsOk m acc :=
          parseLoop_counts input q m _ _ acc ⟨by simp, fun _ => rfl, by simp⟩ hpl
        have hok2 : (if acc.current_record ≠ [] then
            (if acc.is_header_row = true then
              match completeHeaderRow q m acc.current_record with
              | Except.error e => Except.error e
              | Except.ok hs => Except.ok (hs, acc.field_data, acc.counts)
            else
              match completeDataRow q m acc.headers acc.current_record with
              | Except.error e => Except.error e
              | Except.ok res =>
                Except.ok (acc.headers, acc.field_data ++ res.1,
                  acc.counts ++ [res.2]))
          else Except.ok (acc.headers, acc.field_data, acc.counts)) =
          Except.ok (h, f, c) := hok
        by_cases hcr : acc.current_record ≠ []
        · rw [if_pos hcr] at hok2
          by_cases hh2 : acc.is_header_row = true
          · rw [if_pos hh2] at hok2
            cases hch : completeHeaderRow q m acc.current_record with
            | error e =>
              rw [hch] at hok2
              have hok3 : (Except.error e :
                  Except String (List (List Nat) × List (List Nat) × List Nat)) =
                  .ok (h, f, c) := hok2
              exact absurd hok3 (by simp)
            | ok hs =>
              rw [hch] at hok2
              have heq := (Except.ok.inj hok2).symm
              have hhh : h = hs := congrArg (fun t => t.1) heq
              have hcc : c = acc.counts := congrArg (fun t => t.2.2) heq
              subst hhh
              subst hcc
              exact ⟨completeHeaderRow_ok q m _ _ hch, hinv.1⟩
          · rw [if_neg hh2] at hok2
            cases hcd : completeDataRow q m acc.headers acc.current_record with
            | error e =>
              rw [hcd] at hok2
              have hok3 : (Except.error e :
                  Except String (List (List Nat) × List (List Nat) × List Nat)) =
                  .ok (h, f, c) := hok2
              exact absurd hok3 (by simp)
            | ok res =>
              rw [hcd] at hok2
              have heq := (Except.ok.inj hok2).symm
              have hhh : h = acc.headers := congrArg (fun t => t.1) heq
              have hcc : c = acc.counts ++ [res.2] := congrArg (fun t => t.2.2) heq
              subst hhh
              subst hcc
              refine ⟨hinv.2.2 (by simpa using hh2), ?_⟩
              intro x hx
              rcases List.mem_append.mp hx with hx | hx
              · exact hinv.1 x hx
              · have : x = res.2 := by simpa using hx
                subst this
                exact completeDataRow_ok q m acc.headers _ res hcd
        · rw [if_neg hcr] at hok2
          have heq := (Except.ok.inj hok2).symm
          have hhh : h = acc.headers := congrArg (fun t => t.1) heq
          have hcc : c = acc.counts := congrArg (fun t => t.2.2) heq
          subst hhh
          subst hcc
          refine ⟨?_, hinv.1⟩
          by_cases hh2 : acc.is_header_row = true
          · rw [hinv.2.1 hh2]
            exact Nat.zero_le m
          · exact hinv.2.2 (by simpa using hh2)

/-- C8: a record whose field count exceeds `max_field_count` — the header row
included — makes parsing fail with the field-count-exceeded error, while a
record with exactly `max_field_count` fields succeeds; any successful parse
has its header length and every actual field count within the limit. With
`max_field_count = 2`, parsing the header row `a,b,c` fails. -/
theorem max_field_count_guard :
    (∀ input d q m h f c, parse_csv input d q m = .ok (h, f, c) →
        h.length ≤ m ∧ ∀ x ∈ c, x ≤ m) ∧
    parse_csv (asciiBytes "a,b,c\n") 44 34 2 =
      .error "Field count (3) exceeds maximum allowed (2)" ∧
    parse_csv (asciiBytes "a,b,c\n") 44 34 3 =
      .ok ([[97], [98], [99]], [], []) ∧
    parse_csv (asciiBytes "a,b\n1,2,3\n") 44 34 2 =
      .error "Data row field count (3) exceeds maximum allowed (2)" ∧
    parse_csv (asciiBytes "a,b,c\n1,2,3\n") 44 34 3 =
      .ok ([[97], [98], [99]], [[49], [50], [51]], [3]) := by
  refine ⟨?_, by rfl, by rfl, by rfl, by rfl⟩
  intro input d q m h f c hok
  exact parse_from_scan_bounds input q m _ h f c hok

/-- Witness for `max_field_count_guard`: the soundness conjunct applied to the
concrete successful parse at the exact limit. -/
theorem max_field_count_guard_witness :
    ([[97], [98], [99]] : List (List Nat)).length ≤ 3 ∧
      ∀ x ∈ [3], x ≤ 3 :=
  max_field_count_guard.1 (asciiBytes "a,b,c\n1,2,3\n") 44 34 3
    [[97], [98], [99]] [[49], [50], [51]] [3] (by rfl)

/-! ### C3: unclosed quote -/

/-- C3 (amended): whenever the scan of the whole input ends inside a quote,
the one-shot `parse_csv` fails with the unclosed-quote error at end of input —
in particular on `a,b\n"1,2` — rather than silently finalizing the partial
field. (The `flush` of the streaming optimized parser, by contrast, finalizes the
partial quoted field without an error; see the counterexample theorem.) -/
theorem unclosed_quote_parse_error :
    (∀ input d q m, (scan_scalar d q input 0 0).end_in_quote ≠ 0 →
        parse_csv input d q m = .error "Unexpected EOF while parsing quoted field") ∧
    parse_csv (asciiBytes "a,b\n\"1,2") 44 34 100 =
      .error "Unexpected EOF while parsing quoted field" := by
  refine ⟨?_, by rfl⟩
  intro input d q m hq
  unfold parse_csv parse_from_scan
  rw [if_neg ?hempty, if_pos hq]
  case hempty =>
    rintro ⟨hsep, hinput⟩
    subst hinput
    exact hq rfl

/-- Witness for `unclosed_quote_parse_error`: the general conjunct applied to
the concrete input `a,b\n"1,2`, whose scan ends inside a quote. -/
theorem unclosed_quote_parse_error_witness :
    parse_csv (asciiBytes "a,b\n\"1,2") 44 34 200 =
      .error "Unexpected EOF while parsing quoted field" :=
  unclosed_quote_parse_error.1 (asciiBytes "a,b\n\"1,2") 44 34 200 (by decide)

/-! ### C9: sparse records -/

/-- C9 counterexample: parsing `a,b,c\n1,2\n` succeeds with one data record of
actual field count 2, but the missing third field is padded with the empty
string — the very same value an explicitly empty third field produces (input
`a,b,c\n1,2,\n`). The returned field data holds no absent marker distinct from
an empty-string field value; absence is recoverable only from
`actualFieldCounts`. -/
theorem sparse_padding_counterexample :
    parse_csv (asciiBytes "a,b,c\n1,2\n") 44 34 1000 =
      .ok ([[97], [98], [99]], [[49], [50], []], [2]) ∧
    parse_csv (asciiBytes "a,b,c\n1,2,\n") 44 34 1000 =
      .ok ([[97], [98], [99]], [[49], [50], []], [3]) := by
  exact ⟨by rfl, by rfl⟩

/-- C9 (amended): parsing `a,b,c\n1,2\n` succeeds (it is not an error) with
headers `a,b,c` and exactly one data record whose actual field count is 2;
the missing third field is padded with an empty string in the flat field
data, and its absence is indicated by the actual field count of the record (fields
at indices at or beyond it are absent), not by a distinct marker value. -/
theorem sparse_padding_amended :
    parse_csv (asciiBytes "a,b,c\n1,2\n") 44 34 1000 =
      .ok ([[97], [98], [99]], [[49], [50], []], [2]) := by
  rfl

/-! ## The optimized DFA parser (`parser_optimized.rs`)

`CSVParserOptimized` embedded over byte lists. `current_field` holds the char
codes of the field buffer. Emitted data records are modelled as their raw
field lists (the source additionally keys them by the headers when converting
to host objects). `Position` tracking (byte/line/record counters) is omitted:
it only feeds diagnostics text and never influences control flow; the
field-count error message is modelled without the position numbers. -/

/-- Model of `OptimizedParserState` from `parser_optimized.rs`. -/
inductive OptState where
  | fieldStart
  | inField
  | inQuotedField
  | afterQuote
deriving Repr, DecidableEq

/-- Model of `ByteClass` from `parser_optimized.rs`. -/
inductive ByteClass where
  | normal
  | delimiter
  | quoteClass
  | lf
  | cr
deriving Repr, DecidableEq

/-- Model of `ByteClassMap::get`: the lookup array is written in the order delimiter,
quote, LF, CR, so a later write wins when the configured bytes coincide. -/
def byteClass (delimiter quote b : Nat) : ByteClass :=
  if b = 13 then .cr
  else if b = 10 then .lf
  else if b = quote then .quoteClass
  else if b = delimiter then .delimiter
  else .normal

/-- Model of `DfaTable::new` and `DfaTable::next`: `(state, class) -> (next_state, has_output)`. -/
def dfaNext : OptState → ByteClass → OptState × Bool
  | .fieldStart, .normal => (.inField, true)
  | .fieldStart, .delimiter => (.fieldStart, false)
  | .fieldStart, .quoteClass => (.inQuotedField, false)
  | .fieldStart, .lf => (.fieldStart, false)
  | .fieldStart, .cr => (.fieldStart, false)
  | .inField, .normal => (.inField, true)
  | .inField, .delimiter => (.fieldStart, false)
  | .inField, .quoteClass => (.inField, true)
  | .inField, .lf => (.fieldStart, false)
  | .inField, .cr => (.fieldStart, false)
  | .inQuotedField, .normal => (.inQuotedField, true)
  | .inQuotedField, .delimiter => (.inQuotedField, true)
  | .inQuotedField, .quoteClass => (.afterQuote, false)
  | .inQuotedField, .lf => (.inQuotedField, true)
  | .inQuotedField, .cr => (.inQuotedField, true)
  | .afterQuote, .normal => (.inField, false)
  | .afterQuote, .delimiter => (.fieldStart, false)
  | .afterQuote, .quoteClass => (.inQuotedField, true)
  | .afterQuote, .lf => (.fieldStart, false)
  | .afterQuote, .cr => (.fieldStart, false)

/-- The mutable state of `CSVParserOptimized` observable in parse results. -/
structure OptParser where
  state : OptState
  current_field : List Nat
  current_record : List (List Nat)
  headers : Option (List (List Nat))
  headers_parsed : Bool
deriving Repr, DecidableEq

/-- The field-count error of `CSVParserOptimized::finish_field` (modelled
without the position numbers the source interpolates). -/
def fieldLimitMsg : String := "Field count limit exceeded"

/-- Model of `CSVParserOptimized::finish_field` (parser_optimized.rs lines 1063-1075). -/
def finish_field (maxFC : Nat) (p : OptParser) : Except String OptParser :=
  if p.current_record.length ≥ maxFC then .error fieldLimitMsg
  else .ok { p with
    current_record := p.current_record ++ [p.current_field]
    current_field := [] }

/-- Model of `CSVParserOptimized::finish_record` (parser_optimized.rs lines 1078-1107):
the first completed record becomes the headers and is not emitted; later
records are emitted as data. Returns the new state and the emitted record. -/
def finish_record (p : OptParser) : OptParser × Option (List (List Nat)) :=
  if p.current_record = [] ∧ p.headers_parsed = false then (p, none)
  else if p.headers_parsed = false then
    ({ p with
        headers := some p.current_record
        headers_parsed := true
        current_record := [] }, none)
  else
    match p.headers with
    | some _ => ({ p with current_record := [] }, some p.current_record)
    | none => ({ p with current_record := [] }, none)

/-- One ASCII byte through the DFA path of
`CSVParserOptimized::process_bytes_optimized` (lines 811-905, without the bulk
copy): DFA transition, optional output byte, then delimiter/line-ending
field- and record-completion when not inside a quoted field. -/
def stepAscii (maxFC delimiter quote : Nat) (p : OptParser) (b : Nat) :
    Except String (OptParser × Option (List (List Nat))) :=
  let cls := byteClass delimiter quote b
  let nx := dfaNext p.state cls
  let p1 := if nx.2 then { p with current_field := p.current_field ++ [b] } else p
  if p1.state ≠ OptState.inQuotedField then
    if cls = ByteClass.delimiter then
      match finish_field maxFC p1 with
      | .error e => .error e
      | .ok p2 => .ok ({ p2 with state := nx.1 }, none)
    else if cls = ByteClass.lf ∨ cls = ByteClass.cr then
      let needFF := p1.current_field ≠ [] ∨ p1.state = OptState.afterQuote ∨
        (p1.state = OptState.fieldStart ∧ p1.current_record ≠ [])
      match (if needFF then finish_field maxFC p1 else .ok p1) with
      | .error e => .error e
      | .ok p2 =>
        if p2.current_record ≠ [] then
          let fr := finish_record p2
          .ok ({ fr.1 with state := nx.1 }, fr.2)
        else .ok ({ p2 with state := nx.1 }, none)
    else .ok ({ p1 with state := nx.1 }, none)
  else .ok ({ p1 with state := nx.1 }, none)

/-- Length of a UTF-8 sequence from its leading byte, as decoded by
`process_multibyte_utf8` (parser_optimized.rs lines 973-985). -/
def utf8CharLen (b0 : Nat) : Option Nat :=
  if b0 &&& 0xE0 = 0xC0 then some 2
  else if b0 &&& 0xF0 = 0xE0 then some 3
  else if b0 &&& 0xF8 = 0xF0 then some 4
  else none

/-- UTF-8 continuation byte test (`10xxxxxx`). -/
def isContByte (b : Nat) : Bool := b &&& 0xC0 = 0x80

/-- Strict UTF-8 decoding of one complete multi-byte sequence, as validated by
`std::str::from_utf8` in `process_multibyte_utf8`: continuation-byte shapes,
no overlong forms, no surrogates, maximum U+10FFFF. -/
def decodeUtf8 : List Nat → Option Nat
  | [b0, b1] =>
    if isContByte b1 then
      let cp := ((b0 &&& 0x1F) <<< 6) ||| (b1 &&& 0x3F)
      if cp ≥ 0x80 then some cp else none
    else none
  | [b0, b1, b2] =>
    if isContByte b1 ∧ isContByte b2 then
      let cp := ((b0 &&& 0xF) <<< 12) ||| ((b1 &&& 0x3F) <<< 6) ||| (b2 &&& 0x3F)
      if cp ≥ 0x800 ∧ ¬(0xD800 ≤ cp ∧ cp ≤ 0xDFFF) then some cp else none
    else none
  | [b0, b1, b2, b3] =>
    if isContByte b1 ∧ isContByte b2 ∧ isContByte b3 then
      let cp := ((b0 &&& 0x7) <<< 18) ||| ((b1 &&& 0x3F) <<< 12) |||
        ((b2 &&& 0x3F) <<< 6) ||| (b3 &&& 0x3F)
      if 0x10000 ≤ cp ∧ cp ≤ 0x10FFFF then some cp else none
    else none
  | _ => none

/-- The invalid-UTF-8 error of `process_multibyte_utf8` (modelled without the
position numbers). -/
def invalidUtf8Msg : String := "Invalid UTF-8"

/-- Model of `process_multibyte_utf8` and `process_char_non_ascii` (parser_optimized.rs
lines 967-1028): decode one multi-byte character starting at `b` (an
incomplete or invalid sequence is an error), push it onto the field, and move
`FieldStart`/`AfterQuote` to `InField`. Returns the bytes consumed. -/
def stepMulti (p : OptParser) (b : Nat) (rest : List Nat) :
    Except String (OptParser × Nat) :=
  match utf8CharLen b with
  | none => .error invalidUtf8Msg
  | some cl =>
    let cbytes := (b :: rest).take cl
    if cbytes.length < cl then .error invalidUtf8Msg
    else
      match decodeUtf8 cbytes with
      | none => .error invalidUtf8Msg
      | some ch =>
        match p.state with
        | .fieldStart =>
          let p2 := { p with
            current_field := p.current_field ++ [ch]
            state := OptState.inField }
          .ok (p2, cl)
        | .inField => .ok ({ p with current_field := p.current_field ++ [ch] }, cl)
        | .inQuotedField =>
          .ok ({ p with current_field := p.current_field ++ [ch] }, cl)
        | .afterQuote =>
          let p2 := { p with
            current_field := p.current_field ++ [ch]
            state := OptState.inField }
          .ok (p2, cl)

/-- The byte-at-a-time DFA processing loop: the reference semantics that the
bulk-copy optimization must reproduce (the byte-at-a-time path of the spec;
`process_bytes_optimized` with the bulk-copy branch removed). -/
def procBytes (maxFC delimiter quote : Nat) :
    OptParser → List Nat → Except String (OptParser × List (List (List Nat)))
  | p, [] => .ok (p, [])
  | p, b :: rest =>
    if b < 0x80 then
      match stepAscii maxFC delimiter quote p b with
      | .error e => .error e
      | .ok pe =>
        match procBytes maxFC delimiter quote pe.1 rest with
        | .error e => .error e
        | .ok pr => .ok (pr.1, pe.2.toList ++ pr.2)
    else
      match stepMulti p b rest with
      | .error e => .error e
      | .ok pc =>
        match procBytes maxFC delimiter quote pc.1 (rest.drop (pc.2 - 1)) with
        | .error e => .error e
        | .ok pr => .ok (pr.1, pr.2)
termination_by _ l => l.length
decreasing_by
  · simp
  · simp only [List.length_cons]
    have := List.length_drop (pc.2 - 1) rest
    omega

/-- The run predicate of `scan_and_copy_dfa` (parser_optimized.rs lines
932-964): `memchr3(delimiter, LF, CR)` bounds the run and a non-ASCII byte
stops it early; quote bytes are not searched for, because in `InField` they
are ordinary field content. -/
def bulkRunPred (delimiter : Nat) (b : Nat) : Bool :=
  decide (b ≠ delimiter ∧ b ≠ 10 ∧ b ≠ 13 ∧ b < 0x80)

/-- Model of `process_bytes_optimized` (parser_optimized.rs lines 799-919) with the
bulk-copy fast path: when the current byte is a `Normal` ASCII byte in
`FieldStart`/`InField`, enter `InField` and copy the whole run up to the next
delimiter/LF/CR/non-ASCII byte in one operation (`scan_and_copy_dfa`); the
run found by `memchr3` starts at the current byte, which the branch guard
makes satisfy the run predicate, so it is the current byte followed by the
matching prefix of the tail. -/
def procBytesOpt (maxFC delimiter quote : Nat) :
    OptParser → List Nat → Except String (OptParser × List (List (List Nat)))
  | p, [] => .ok (p, [])
  | p, b :: rest =>
    if b < 0x80 then
      if byteClass delimiter quote b = ByteClass.normal ∧
          (p.state = OptState.fieldStart ∨ p.state = OptState.inField) then
        let runTail := rest.takeWhile (bulkRunPred delimiter)
        procBytesOpt maxFC delimiter quote
          { p with
            state := OptState.inField
            current_field := p.current_field ++ b :: runTail }
          (rest.drop runTail.length)
      else
        match stepAscii maxFC delimiter quote p b with
        | .error e => .error e
        | .ok pe =>
          match procBytesOpt maxFC delimiter quote pe.1 rest with
          | .error e => .error e
          | .ok pr => .ok (pr.1, pe.2.toList ++ pr.2)
    else
      match stepMulti p b rest with
      | .error e => .error e
      | .ok pc =>
        match procBytesOpt maxFC delimiter quote pc.1 (rest.drop (pc.2 - 1)) with
        | .error e => .error e
        | .ok pr => .ok (pr.1, pr.2)
termination_by _ l => l.length
decreasing_by
  · simp only [List.length_cons]
    have := List.length_drop (rest.takeWhile (bulkRunPred delimiter)).length rest
    omega
  · simp
  · simp only [List.length_cons]
    have := List.length_drop (pc.2 - 1) rest
    omega

/-- Model of `CSVParserOptimized::flush` (parser_optimized.rs lines 652-686): finalize
any in-progress field/record (without any unclosed-quote check), emit the
completed record, and reset the per-stream state. -/
def flushOpt (maxFC : Nat) (p : OptParser) :
    Except String (OptParser × List (List (List Nat))) :=
  let finalize : Except String (OptParser × List (List (List Nat))) :=
    match finish_field maxFC p with
    | .error e => .error e
    | .ok p2 =>
      let fr := finish_record p2
      .ok (fr.1, fr.2.toList)
  match
    (match p.state with
     | OptState.inQuotedField => finalize
     | OptState.afterQuote => finalize
     | OptState.inField => finalize
     | OptState.fieldStart =>
       if p.current_record ≠ [] ∨ p.current_field ≠ [] then finalize
       else .ok (p, [])) with
  | .error e => .error e
  | .ok pr =>
    .ok ({ pr.1 with
      state := OptState.fieldStart
      current_field := []
      current_record := [] }, pr.2)

/-- The fresh parser state of `CSVParserOptimized::new` with default options
(no externally supplied headers). -/
def initOptParser : OptParser :=
  { state := OptState.fieldStart
    current_field := []
    current_record := []
    headers := none
    headers_parsed := false }

/-- Process a whole input through `CSVParserOptimized` and flush, collecting
all emitted data records. -/
def parseOpt (maxFC delimiter quote : Nat) (input : List Nat) :
    Except String (OptParser × List (List (List Nat))) :=
  match procBytesOpt maxFC delimiter quote initOptParser input with
  | .error e => .error e
  | .ok pr =>
    match flushOpt maxFC pr.1 with
    | .error e => .error e
    | .ok pr2 => .ok (pr2.1, pr.2 ++ pr2.2)

/-! ### C4: bulk-copy equivalence -/

theorem procBytes_nil (maxFC d q : Nat) (p : OptParser) :
    procBytes maxFC d q p [] = .ok (p, []) := by
  rw [procBytes.eq_def]

theorem procBytes_cons (maxFC d q : Nat) (p : OptParser) (b : Nat) (rest : List Nat) :
    procBytes maxFC d q p (b :: rest) =
      (if b < 0x80 then
        match stepAscii maxFC d q p b with
        | .error e => .error e
        | .ok pe =>
          match procBytes maxFC d q pe.1 rest with
          | .error e => .error e
          | .ok pr => .ok (pr.1, pe.2.toList ++ pr.2)
      else
        match stepMulti p b rest with
        | .error e => .error e
        | .ok pc =>
          match procBytes maxFC d q pc.1 (rest.drop (pc.2 - 1)) with
          | .error e => .error e
          | .ok pr => .ok (pr.1, pr.2)) := by
  rw [procBytes.eq_def]

theorem procBytesOpt_nil (maxFC d q : Nat) (p : OptParser) :
    procBytesOpt maxFC d q p [] = .ok (p, []) := by
  rw [procBytesOpt.eq_def]

theorem procBytesOpt_cons (maxFC d q : Nat) (p : OptParser) (b : Nat)
    (rest : List Nat) :
    procBytesOpt maxFC d q p (b :: rest) =
      (if b < 0x80 then
        if byteClass d q b = ByteClass.normal ∧
            (p.state = OptState.fieldStart ∨ p.state = OptState.inField) then
          procBytesOpt maxFC d q
            { p with
              state := OptState.inField
              current_field := p.current_field ++ b :: rest.takeWhile (bulkRunPred d) }
            (rest.drop (rest.takeWhile (bulkRunPred d)).length)
        else
          match stepAscii maxFC d q p b with
          | .error e => .error e
          | .ok pe =>
            match procBytesOpt maxFC d q pe.1 rest with
            | .error e => .error e
            | .ok pr => .ok (pr.1, pe.2.toList ++ pr.2)
      else
        match stepMulti p b rest with
        | .error e => .error e
        | .ok pc =>
          match procBytesOpt maxFC d q pc.1 (rest.drop (pc.2 - 1)) with
          | .error e => .error e
          | .ok pr => .ok (pr.1, pr.2)) := by
  rw [procBytesOpt.eq_def]

theorem byteClass_normal_elim (d q b : Nat) (h : byteClass d q b = ByteClass.normal) :
    b ≠ 13 ∧ b ≠ 10 ∧ b ≠ q ∧ b ≠ d := by
  unfold byteClass at h
  split_ifs at h with h1 h2 h3 h4
  exact ⟨h1, h2, h3, h4⟩

theorem bulkRunPred_elim (d b : Nat) (h : bulkRunPred d b = true) :
    b ≠ d ∧ b ≠ 10 ∧ b ≠ 13 ∧ b < 0x80 := by
  exact of_decide_eq_true h

theorem drop_takeWhile_length {α : Type} (pr : α → Bool) (l : List α) :
    l.drop (l.takeWhile pr).length = l.dropWhile pr := by
  induction l with
  | nil => rfl
  | cons c t ih =>
    by_cases hc : pr c
    · simp only [List.takeWhile_cons, hc, if_true, List.length_cons, List.drop_succ_cons,
        List.dropWhile_cons, ih]
    · simp [List.takeWhile_cons, List.dropWhile_cons, hc]

/-- Stepping one run byte (not delimiter/LF/CR, ASCII) from `InField` pushes
the byte and stays in `InField`, emitting nothing. -/
theorem stepAscii_run (maxFC d q : Nat) (p : OptParser) (b : Nat)
    (hstate : p.state = OptState.inField) (hb : bulkRunPred d b = true) :
    stepAscii maxFC d q p b =
      .ok ({ p with current_field := p.current_field ++ [b] }, none) := by
  obtain ⟨hd, h10, h13, hlt⟩ := bulkRunPred_elim d b hb
  obtain ⟨ps, cf, cr_, hd_, hp_⟩ := p
  simp only at hstate
  subst hstate
  by_cases hq : b = q
  · subst hq
    simp [stepAscii, byteClass, dfaNext, h13, h10, hd]
  · simp [stepAscii, byteClass, dfaNext, hq, h13, h10, hd]

/-- Stepping a `Normal` ASCII byte from `FieldStart` pushes the byte and
enters `InField`, emitting nothing. -/
theorem stepAscii_enterField (maxFC d q : Nat) (p : OptParser) (b : Nat)
    (hstate : p.state = OptState.fieldStart)
    (hcls : byteClass d q b = ByteClass.normal) :
    stepAscii maxFC d q p b =
      .ok ({ p with
        current_field := p.current_field ++ [b]
        state := OptState.inField }, none) := by
  obtain ⟨ps, cf, cr_, hd_, hp_⟩ := p
  simp only at hstate
  subst hstate
  simp [stepAscii, hcls, dfaNext]

/-- Byte-at-a-time processing of a whole run of plain bytes from `InField`
appends the run to the field and changes nothing else. -/
theorem procBytes_run (maxFC d q : Nat) (runTail : List Nat) :
    ∀ (p : OptParser) (rest : List Nat),
    (∀ b ∈ runTail, bulkRunPred d b = true) → p.state = OptState.inField →
    procBytes maxFC d q p (runTail ++ rest) =
      procBytes maxFC d q { p with current_field := p.current_field ++ runTail }
        rest := by
  induction runTail with
  | nil =>
    intro p rest _ _
    simp
  | cons c t ih =>
    intro p rest hall hstate
    obtain ⟨ps, cf, crd, hdd, hpp⟩ := p
    replace hstate : ps = OptState.inField := hstate
    subst hstate
    have hc : bulkRunPred d c = true := hall c (by simp)
    have hlt : c < 0x80 := (bulkRunPred_elim d c hc).2.2.2
    have hred : procBytes maxFC d q ⟨OptState.inField, cf, crd, hdd, hpp⟩
          ((c :: t) ++ rest) =
        match procBytes maxFC d q ⟨OptState.inField, cf ++ [c], crd, hdd, hpp⟩
            (t ++ rest) with
        | .error e => .error e
        | .ok pr => .ok (pr.1, pr.2) := by
      rw [List.cons_append, procBytes_cons, if_pos hlt,
        stepAscii_run maxFC d q _ c rfl hc]
      rfl
    rw [hred]
    have ih2 := ih ⟨OptState.inField, cf ++ [c], crd, hdd, hpp⟩ rest
      (fun b hb => hall b (by simp [hb])) rfl
    rw [ih2]
    simp only [List.append_assoc, List.singleton_append]
    cases hX : procBytes maxFC d q ⟨OptState.inField, cf ++ c :: t, crd, hdd, hpp⟩
        rest with
    | error e => rfl
    | ok pr => rfl

/-- The first byte of a bulk run, stepped byte-at-a-time: a `Normal` ASCII
byte from `FieldStart` or `InField` pushes the byte and lands in `InField`. -/
theorem procBytes_first_normal (maxFC d q : Nat) (p : OptParser) (b : Nat)
    (rest : List Nat) (hb : b < 0x80) (hcls : byteClass d q b = ByteClass.normal)
    (hst : p.state = OptState.fieldStart ∨ p.state = OptState.inField) :
    procBytes maxFC d q p (b :: rest) =
      procBytes maxFC d q
        { p with
          current_field := p.current_field ++ [b]
          state := OptState.inField } rest := by
  obtain ⟨hb13, hb10, hbq, hbd⟩ := byteClass_normal_elim d q b hcls
  obtain ⟨ps, cf, crd, hdd, hpp⟩ := p
  rcases hst with hst | hst
  · replace hst : ps = OptState.fieldStart := hst
    subst hst
    rw [procBytes_cons, if_pos hb, stepAscii_enterField maxFC d q _ b rfl hcls]
    show (match procBytes maxFC d q ⟨OptState.inField, cf ++ [b], crd, hdd, hpp⟩
          rest with
        | Except.error e => Except.error e
        | Except.ok pr => Except.ok (pr.1, pr.2)) =
      procBytes maxFC d q ⟨OptState.inField, cf ++ [b], crd, hdd, hpp⟩ rest
    cases hX : procBytes maxFC d q ⟨OptState.inField, cf ++ [b], crd, hdd, hpp⟩
        rest with
    | error e => rfl
    | ok pr => rfl
  · replace hst : ps = OptState.inField := hst
    subst hst
    have hpred : bulkRunPred d b = true := by
      unfold bulkRunPred
      exact decide_eq_true ⟨hbd, hb10, hb13, hb⟩
    rw [procBytes_cons, if_pos hb, stepAscii_run maxFC d q _ b rfl hpred]
    show (match procBytes maxFC d q ⟨OptState.inField, cf ++ [b], crd, hdd, hpp⟩
          rest with
        | Except.error e => Except.error e
        | Except.ok pr => Except.ok (pr.1, pr.2)) =
      procBytes maxFC d q ⟨OptState.inField, cf ++ [b], crd, hdd, hpp⟩ rest
    cases hX : procBytes maxFC d q ⟨OptState.inField, cf ++ [b], crd, hdd, hpp⟩
        rest with
    | error e => rfl
    | ok pr => rfl

/-- C4: for every input and every parser state, running the DFA parser with
the bulk-copy fast path (`scan_and_copy_dfa`: scan ahead for the next
delimiter/LF/CR/non-ASCII byte and copy the whole run of `Normal` bytes in
one operation while in `InField`) produces exactly the same result — fields,
records, emitted data, errors and final parser state — as transitioning the
4-state DFA one byte at a time. -/
theorem bulk_copy_equivalence (maxFC d q : Nat) (input : List Nat) (p : OptParser) :
    procBytesOpt maxFC d q p input = procBytes maxFC d q p input := by
  have H : ∀ n (l : List Nat) (p : OptParser), l.length ≤ n →
      procBytesOpt maxFC d q p l = procBytes maxFC d q p l := by
    intro n
    induction n with
    | zero =>
      intro l p hl
      have hnil : l = [] := List.eq_nil_of_length_eq_zero (Nat.le_zero.mp hl)
      subst hnil
      rw [procBytesOpt_nil, procBytes_nil]
    | succ n ih =>
      intro l p hl
      cases l with
      | nil => rw [procBytesOpt_nil, procBytes_nil]
      | cons b rest =>
        have hrest : rest.length ≤ n := by
          simp only [List.length_cons] at hl
          omega
        by_cases hb : b < 0x80
        · by_cases hbulk : byteClass d q b = ByteClass.normal ∧
              (p.state = OptState.fieldStart ∨ p.state = OptState.inField)
          · rw [procBytesOpt_cons, if_pos hb, if_pos hbulk]
            have hdroplen : (rest.drop (rest.takeWhile (bulkRunPred d)).length).length ≤ n := by
              have := List.length_drop (rest.takeWhile (bulkRunPred d)).length rest
              omega
            rw [ih _ _ hdroplen]
            obtain ⟨hcls, hst⟩ := hbulk
            rw [procBytes_first_normal maxFC d q p b rest hb hcls hst]
            have hallrt : ∀ x ∈ rest.takeWhile (bulkRunPred d),
                bulkRunPred d x = true := fun x hx => List.mem_takeWhile_imp hx
            have hsplit : rest.takeWhile (bulkRunPred d) ++
                rest.drop (rest.takeWhile (bulkRunPred d)).length = rest := by
              rw [drop_takeWhile_length]
              exact List.takeWhile_append_dropWhile _ _
            conv_rhs => rw [← hsplit]
            rw [procBytes_run maxFC d q (rest.takeWhile (bulkRunPred d)) _ _
              hallrt rfl]
            obtain ⟨ps, cf, crd, hdd, hpp⟩ := p
            simp [List.append_assoc, List.singleton_append]
          · rw [procBytesOpt_cons, if_pos hb, if_neg hbulk, procBytes_cons, if_pos hb]
            cases hsa : stepAscii maxFC d q p b with
            | error e => rfl
            | ok pe =>
              show (match procBytesOpt maxFC d q pe.1 rest with
                  | Except.error e => Except.error e
                  | Except.ok pr => Except.ok (pr.1, pe.2.toList ++ pr.2)) =
                (match procBytes maxFC d q pe.1 rest with
                  | Except.error e => Except.error e
                  | Except.ok pr => Except.ok (pr.1, pe.2.toList ++ pr.2))
              rw [ih rest pe.1 hrest]
        · rw [procBytesOpt_cons, if_neg hb, procBytes_cons, if_neg hb]
          cases hsm : stepMulti p b rest with
          | error e => rfl
          | ok pc =>
            show (match procBytesOpt maxFC d q pc.1 (rest.drop (pc.2 - 1)) with
                | Except.error e => Except.error e
                | Except.ok pr => Except.ok (pr.1, pr.2)) =
              (match procBytes maxFC d q pc.1 (rest.drop (pc.2 - 1)) with
                | Except.error e => Except.error e
                | Except.ok pr => Except.ok (pr.1, pr.2))
            have hlen2 : (rest.drop (pc.2 - 1)).length ≤ n := by
              have := List.length_drop (pc.2 - 1) rest
              omega
            rw [ih _ pc.1 hlen2]
  exact H input.length input p (le_refl _)

/-! ### C2: line-ending policy -/

/-- Outside a quoted field, a CR byte drives the DFA parser exactly like an
LF byte. -/
theorem stepAscii_cr_eq_lf (maxFC d q : Nat) (p : OptParser)
    (hst : p.state ≠ OptState.inQuotedField) :
    stepAscii maxFC d q p 13 = stepAscii maxFC d q p 10 := by
  obtain ⟨ps, cf, crd, hdd, hpp⟩ := p
  cases ps with
  | inQuotedField => exact absurd rfl hst
  | fieldStart => rfl
  | inField => rfl
  | afterQuote => rfl

theorem finish_field_ok (maxFC : Nat) (p p2 : OptParser)
    (h : finish_field maxFC p = .ok p2) :
    p2 = { p with
      current_record := p.current_record ++ [p.current_field]
      current_field := [] } := by
  unfold finish_field at h
  split_ifs at h
  exact (Except.ok.inj h).symm

theorem finish_record_record (p : OptParser) :
    (finish_record p).1.current_record = [] := by
  unfold finish_record
  split_ifs with h1 h2
  · exact h1.1
  · rfl
  · cases hh : p.headers <;> rfl

theorem finish_record_field (p : OptParser) :
    (finish_record p).1.current_field = p.current_field := by
  unfold finish_record
  split_ifs with h1 h2
  · rfl
  · rfl
  · cases hh : p.headers <;> rfl

/-- The shared line-ending completion branch of `stepAscii`: whatever the
conditional field/record finishing does, a successful step ends with an empty
field buffer, an empty record buffer and the given next state. -/
theorem lineEnd_branch_clean (maxFC : Nat) (p1 p2 : OptParser)
    (em : Option (List (List Nat))) (nfst : OptState)
    (needFF : Prop) [Decidable needFF] (hneed : ¬needFF → p1.current_field = [])
    (hok : (match (if needFF then finish_field maxFC p1 else Except.ok p1) with
        | Except.error e => Except.error e
        | Except.ok p2x =>
          if p2x.current_record ≠ [] then
            Except.ok ({ (finish_record p2x).1 with state := nfst },
              (finish_record p2x).2)
          else Except.ok ({ p2x with state := nfst }, none)) = Except.ok (p2, em)) :
    p2.current_field = [] ∧ p2.current_record = [] ∧ p2.state = nfst := by
  cases hff : (if needFF then finish_field maxFC p1 else Except.ok p1) with
  | error e =>
    rw [hff] at hok
    exact absurd hok (by simp)
  | ok p2x =>
    rw [hff] at hok
    have hf : p2x.current_field = [] := by
      split_ifs at hff with hn
      · rw [finish_field_ok maxFC p1 p2x hff]
      · have h12 : p1 = p2x := Except.ok.inj hff
        subst h12
        exact hneed hn
    have hok2 : (if p2x.current_record ≠ [] then
          Except.ok ({ (finish_record p2x).1 with state := nfst },
            (finish_record p2x).2)
        else
          Except.ok (({ p2x with state := nfst } : OptParser),
            (none : Option (List (List Nat))))) = Except.ok (p2, em) := hok
    by_cases hr : p2x.current_record ≠ []
    · rw [if_pos hr] at hok2
      have heq := (Except.ok.inj hok2).symm
      have hp2 : p2 = { (finish_record p2x).1 with state := nfst } :=
        congrArg Prod.fst heq
      subst hp2
      refine ⟨?_, ?_, rfl⟩
      · show (finish_record p2x).1.current_field = []
        rw [finish_record_field]
        exact hf
      · show (finish_record p2x).1.current_record = []
        exact finish_record_record p2x
    · rw [if_neg hr] at hok2
      have heq := (Except.ok.inj hok2).symm
      have hp2 : p2 = { p2x with state := nfst } := congrArg Prod.fst heq
      subst hp2
      exact ⟨hf, not_not.mp hr, rfl⟩

set_option maxHeartbeats 1600000 in
/-- After successfully stepping a line-ending byte outside quotes, the field
buffer and record buffer are empty and the state is `FieldStart`: the record
boundary has been taken. -/
theorem stepAscii_lineEnd_clean (maxFC d q : Nat) (p : OptParser) (b : Nat)
    (hb : b = 10 ∨ b = 13) (hst : p.state ≠ OptState.inQuotedField)
    (p2 : OptParser) (em : Option (List (List Nat)))
    (hok : stepAscii maxFC d q p b = .ok (p2, em)) :
    p2.current_field = [] ∧ p2.current_record = [] ∧
      p2.state = OptState.fieldStart := by
  obtain ⟨ps, cf, crd, hdd, hpp⟩ := p
  rcases hb with hb | hb <;> subst hb <;> cases ps <;>
    first
      | exact absurd rfl hst
      | exact lineEnd_branch_clean maxFC _ p2 em OptState.fieldStart _
          (fun hn => by
            push_neg at hn
            exact hn.1) hok

/-- Stepping an LF from a clean `FieldStart` state (empty field, empty
record) is a no-op: no extra empty record is produced. -/
theorem stepAscii_lf_noop (maxFC d q : Nat) (p2 : OptParser)
    (hf : p2.current_field = []) (hr : p2.current_record = [])
    (hs : p2.state = OptState.fieldStart) :
    stepAscii maxFC d q p2 10 = .ok (p2, none) := by
  obtain ⟨ps, cf, crd, hdd, hpp⟩ := p2
  replace hf : cf = [] := hf
  replace hr : crd = [] := hr
  replace hs : ps = OptState.fieldStart := hs
  subst hf
  subst hr
  subst hs
  rfl

/-- C2: LF, CR and CRLF are all record terminators and CRLF is a single
terminator in the optimized DFA parser: outside quoted fields a CR byte is
processed exactly like an LF byte; after a CR, a following LF is a no-op
(never a second boundary or an extra empty record); a successful line-ending
step always leaves the parser at a record boundary (empty field and record
buffers, state `FieldStart`); and `a,b\r\n1,2\r\n` parses to exactly one
header row and one data row. -/
theorem crlf_single_terminator (maxFC d q : Nat) :
    (∀ p : OptParser, p.state ≠ OptState.inQuotedField →
        procBytes maxFC d q p [13] = procBytes maxFC d q p [10]) ∧
    (∀ p : OptParser, p.state ≠ OptState.inQuotedField →
        procBytes maxFC d q p [13, 10] = procBytes maxFC d q p [13]) ∧
    (∀ (p p2 : OptParser) (recs : List (List (List Nat))) (b : Nat),
        b = 10 ∨ b = 13 → p.state ≠ OptState.inQuotedField →
        procBytes maxFC d q p [b] = .ok (p2, recs) →
        p2.current_field = [] ∧ p2.current_record = [] ∧
          p2.state = OptState.fieldStart) ∧
    parseOpt 100000 44 34 (asciiBytes "a,b\r\n1,2\r\n") =
      .ok ({ state := OptState.fieldStart
             current_field := []
             current_record := []
             headers := some [[97], [98]]
             headers_parsed := true }, [[[49], [50]]]) := by
  refine ⟨?_, ?_, ?_, ?_⟩
  · intro p hst
    rw [procBytes_cons, procBytes_cons, if_pos (show (13:Nat) < 0x80 by decide),
      if_pos (show (10:Nat) < 0x80 by decide), stepAscii_cr_eq_lf maxFC d q p hst]
  · intro p hst
    rw [procBytes_cons, procBytes_cons, if_pos (show (13:Nat) < 0x80 by decide),
      if_pos (show (13:Nat) < 0x80 by decide)]
    cases hsa : stepAscii maxFC d q p 13 with
    | error e => rfl
    | ok pe =>
      obtain ⟨hcf, hcr, hstate⟩ :=
        stepAscii_lineEnd_clean maxFC d q p 13 (Or.inr rfl) hst pe.1 pe.2 hsa
      show (match procBytes maxFC d q pe.1 [10] with
          | Except.error e => Except.error e
          | Except.ok pr => Except.ok (pr.1, pe.2.toList ++ pr.2)) =
        (match procBytes maxFC d q pe.1 [] with
          | Except.error e => Except.error e
          | Except.ok pr => Except.ok (pr.1, pe.2.toList ++ pr.2))
      have hlf : procBytes maxFC d q pe.1 [10] = .ok (pe.1, []) := by
        rw [procBytes_cons, if_pos (show (10:Nat) < 0x80 by decide),
          stepAscii_lf_noop maxFC d q pe.1 hcf hcr hstate]
        show (match procBytes maxFC d q pe.1 [] with
            | Except.error e => Except.error e
            | Except.ok pr =>
              Except.ok (pr.1, (none : Option (List (List Nat))).toList ++ pr.2)) =
          Except.ok (pe.1, [])
        rw [procBytes_nil]
        rfl
      rw [hlf, procBytes_nil]
  · intro p p2 recs b hb hst hok
    have hblt : b < 0x80 := by
      rcases hb with hb | hb <;> subst hb <;> decide
    rw [procBytes_cons, if_pos hblt] at hok
    cases hsa : stepAscii maxFC d q p b with
    | error e =>
      rw [hsa] at hok
      have hok2 : (Except.error e :
          Except String (OptParser × List (List (List Nat)))) =
          .ok (p2, recs) := hok
      exact absurd hok2 (by simp)
    | ok pe =>
      rw [hsa] at hok
      have hok3 : (match procBytes maxFC d q pe.1 [] with
          | Except.error e => Except.error e
          | Except.ok pr => Except.ok (pr.1, pe.2.toList ++ pr.2)) =
          Except.ok (p2, recs) := hok
      rw [procBytes_nil] at hok3
      have hok4 : Except.ok (pe.1, pe.2.toList ++ ([] : List (List (List Nat)))) =
          Except.ok (p2, recs) := hok3
      have heq := (Except.ok.inj hok4).symm
      have hp2 : p2 = pe.1 := congrArg Prod.fst heq
      subst hp2
      exact stepAscii_lineEnd_clean maxFC d q p b hb hst pe.1 pe.2 hsa
  · simp [parseOpt, asciiBytes, procBytesOpt_cons, procBytesOpt_nil, stepAscii,
      byteClass, dfaNext, finish_field, finish_record, flushOpt, bulkRunPred,
      initOptParser]

/-- Witness for `crlf_single_terminator`: the general conjuncts applied to
the initial parser state (which is not inside a quoted field): CR behaves
like LF from the initial state. -/
theorem crlf_single_terminator_witness :
    procBytes 100000 44 34 initOptParser [13] =
      procBytes 100000 44 34 initOptParser [10] :=
  (crlf_single_terminator 100000 44 34).1 initOptParser (by
    simp [initOptParser])

/-- C3 counterexample: the `flush` of the streaming optimized parser does not fail
on an unclosed quote. Processing `a,b\n"1,2` leaves the parser inside the
quoted field, and `flush` silently finalizes the partial field `1,2` into a
data record and returns successfully — there is no `UnclosedQuote` error in
this path, contrary to the flush semantics stated in the spec. -/
theorem unclosed_quote_flush_counterexample :
    parseOpt 100000 44 34 (asciiBytes "a,b\n\"1,2") =
      .ok ({ state := OptState.fieldStart
             current_field := []
             current_record := []
             headers := some [[97], [98]]
             headers_parsed := true }, [[[49, 44, 50]]]) := by
  simp [parseOpt, asciiBytes, procBytesOpt_cons, procBytesOpt_nil, stepAscii,
    byteClass, dfaNext, finish_field, finish_record, flushOpt, bulkRunPred,
    initOptParser]

end CsvWasm
